import Mathlib

/-!
Verification of the word-ratio core of RustPythonCFFI.

The Python source (src/inPython.py) is:

  def shortLong(string):
      split = string.split()
      split = [i for i in split if (i != "the") & (i != "a")]
      l = 0
      for i in split:
          if len(i) > 8:
              l += 1
      return l / len(split)

A Python string is a sequence of Unicode code points, embedded here as
`List Char`.  `str.split()` with no argument splits on runs of whitespace
and discards empty tokens; `l / len(split)` is exact true division on the
two nonnegative integers, which we model over `ℚ`, and it raises
`ZeroDivisionError` when `len(split) = 0`, which we model as an explicit
error constructor of the result type.
-/

namespace RustPythonCFFI

/-- Whitespace characters recognized by Python `str.split()` on ASCII text:
space, tab, newline, carriage return, vertical tab, form feed. -/
def isSpace (c : Char) : Bool :=
  c == ' ' || c == '\t' || c == '\n' || c == '\r' || c == '\x0b' || c == '\x0c'

/-- Accumulator-passing splitter: `acc` holds the (reversed) characters of the
word currently being read.  A whitespace character ends the current word, and
empty tokens are never emitted, exactly as `str.split()` behaves. -/
def splitWordsAux : List Char → List Char → List (List Char)
  | [], acc => if acc = [] then [] else [acc.reverse]
  | c :: rest, acc =>
    if isSpace c then
      if acc = [] then splitWordsAux rest []
      else acc.reverse :: splitWordsAux rest []
    else
      splitWordsAux rest (c :: acc)

/-- `string.split()`: maximal runs of non-whitespace characters, with empty
tokens discarded. -/
def splitWords (s : List Char) : List (List Char) :=
  splitWordsAux s []

/-- The stopword `"the"` as a code-point sequence. -/
def theWord : List Char := ['t', 'h', 'e']

/-- The stopword `"a"` as a code-point sequence. -/
def aWord : List Char := ['a']

/-- The comprehension `[i for i in split if (i != "the") & (i != "a")]`:
keep a word exactly when it differs from both stopwords
(Python's `&` on two bools is logical conjunction). -/
def qualifying (s : List Char) : List (List Char) :=
  (splitWords s).filter (fun i => !(i == theWord) && !(i == aWord))

/-- The counting loop: `l = 0; for i in split: if len(i) > 8: l += 1`.
`len` on a Python string counts code points, i.e. `List.length` here. -/
def countLong (ws : List (List Char)) : Nat :=
  ws.foldl (fun l i => if 8 < i.length then l + 1 else l) 0

/-- Outcome of a call to `shortLong`: either a returned float (modelled
exactly over `ℚ`) or the `ZeroDivisionError` raised by `l / len(split)`
when `len(split) = 0`. -/
inductive PyResult where
  | ok (q : ℚ)
  | zeroDivisionError
deriving DecidableEq

/-- `shortLong` from src/inPython.py, lines 2–9. -/
def shortLong (s : List Char) : PyResult :=
  let split := qualifying s
  let l := countLong split
  if split.length = 0 then .zeroDivisionError
  else .ok ((l : ℚ) / (split.length : ℚ))

/-- `shortLong` applied to a Lean string literal, via its code points. -/
def shortLongStr (s : String) : PyResult :=
  shortLong s.data

/-- Spec-side qualifying sequence, written from the spec's words: the words
remaining after removing every word that exactly equals `"the"` or `"a"`. -/
def qualifyingSpec (s : List Char) : List (List Char) :=
  (splitWords s).filter (fun w => decide (w ≠ theWord) && decide (w ≠ aWord))

/-- Spec-side `Q`: the number of qualifying words. -/
def specQ (s : List Char) : Nat :=
  (qualifyingSpec s).length

/-- Spec-side `L`: the number of qualifying words of character length
exceeding 8. -/
def specL (s : List Char) : Nat :=
  (qualifyingSpec s).countP (fun w => decide (8 < w.length))

/-- UTF-8 byte length of a word, used to state that the long-word test is
about code points and not bytes. -/
def utf8Len (w : List Char) : Nat :=
  (w.map (fun c => c.utf8Size)).sum

/-! ### Auxiliary lemmas -/

/-- The source's filter predicate and the spec-side one agree. -/
theorem qualifying_eq_spec (s : List Char) : qualifying s = qualifyingSpec s := by
  unfold qualifying qualifyingSpec
  congr 1
  funext i
  by_cases h1 : i = theWord <;> by_cases h2 : i = aWord <;> simp [h1, h2]

/-- The counting loop computes `countP` of the long-word predicate. -/
theorem countLong_go (ws : List (List Char)) (n : Nat) :
    ws.foldl (fun l i => if 8 < i.length then l + 1 else l) n
      = n + ws.countP (fun w => decide (8 < w.length)) := by
  induction ws generalizing n with
  | nil => simp
  | cons w ws ih =>
    simp only [List.foldl_cons, List.countP_cons, ih]
    by_cases h : 8 < w.length
    · simp [h]
      omega
    · simp [h]

theorem countLong_eq_countP (ws : List (List Char)) :
    countLong ws = ws.countP (fun w => decide (8 < w.length)) := by
  simpa using countLong_go ws 0

theorem countLong_le_length (ws : List (List Char)) :
    countLong ws ≤ ws.length := by
  rw [countLong_eq_countP]
  exact List.countP_le_length _

/-- Evaluation helper: once the qualifying count `n` and the long count `l`
of an input are computed (both at the `Nat` level) and `n ≠ 0`, the call
returns the rational `l / n`. -/
theorem shortLong_eval (s : List Char) (l n : Nat) (q : ℚ)
    (hl : countLong (qualifying s) = l) (hn : (qualifying s).length = n)
    (h0 : n ≠ 0) (hq : (l : ℚ) / (n : ℚ) = q) :
    shortLong s = .ok q := by
  simp only [shortLong]
  rw [hl, hn, if_neg h0, hq]

/-- All-whitespace input consumed by the splitter only flushes the pending
word (if any) and emits nothing else. -/
theorem splitWordsAux_allSpace (w : List Char) (acc : List Char)
    (h : ∀ c ∈ w, isSpace c = true) :
    splitWordsAux w acc = if acc = [] then [] else [acc.reverse] := by
  induction w generalizing acc with
  | nil => rfl
  | cons c rest ih =>
    have hc : isSpace c = true := h c (by simp)
    have hr : ∀ x ∈ rest, isSpace x = true := fun x hx => h x (by simp [hx])
    by_cases ha : acc = []
    · simp [splitWordsAux, hc, ha, ih _ hr]
    · simp [splitWordsAux, hc, ha, ih _ hr]

/-- Trailing whitespace does not change the splitter's output. -/
theorem splitWordsAux_dropTrailing (s w : List Char) (acc : List Char)
    (h : ∀ c ∈ w, isSpace c = true) :
    splitWordsAux (s ++ w) acc = splitWordsAux s acc := by
  induction s generalizing acc with
  | nil =>
    simp only [List.nil_append]
    rw [splitWordsAux_allSpace w acc h]
    rfl
  | cons c rest ih =>
    by_cases hc : isSpace c = true
    · by_cases ha : acc = [] <;> simp [splitWordsAux, hc, ha, ih]
    · simp [splitWordsAux, hc, ih]

/-- Leading whitespace does not change the splitter's output. -/
theorem splitWordsAux_dropLeading (w s : List Char)
    (h : ∀ c ∈ w, isSpace c = true) :
    splitWordsAux (w ++ s) [] = splitWordsAux s [] := by
  induction w with
  | nil => rfl
  | cons c rest ih =>
    have hc : isSpace c = true := h c (by simp)
    have hr : ∀ x ∈ rest, isSpace x = true := fun x hx => h x (by simp [hx])
    simp [splitWordsAux, hc, ih hr]

theorem isSpace_space : isSpace ' ' = true := rfl

/-- Replacing every whitespace character by a plain space does not change the
splitter's output: space, tab, newline and the other whitespace characters
are treated uniformly as separators. -/
theorem splitWordsAux_uniform (s : List Char) (acc : List Char) :
    splitWordsAux (s.map (fun c => if isSpace c then ' ' else c)) acc
      = splitWordsAux s acc := by
  induction s generalizing acc with
  | nil => rfl
  | cons c rest ih =>
    by_cases hc : isSpace c = true
    · simp [splitWordsAux, hc, ih, isSpace_space]
    · simp [splitWordsAux, hc, ih]

/-! ### Claims -/

/-- C1: for every input whose qualifying-word count Q (whitespace-split
words, empty tokens discarded, exact matches of "the" and "a" removed) is
positive, shortLong returns exactly L / Q, where L is the number of
qualifying words of character length exceeding 8 (`specL`/`specQ` are the
spec-side definitions of L and Q). -/
theorem shortLong_returns_L_div_Q (s : List Char) (h : 0 < specQ s) :
    shortLong s = .ok ((specL s : ℚ) / (specQ s : ℚ)) := by
  unfold specQ at h
  simp only [shortLong, qualifying_eq_spec, countLong_eq_countP]
  rw [if_neg (by omega)]
  rfl

/-- Witness for C1 at the concrete input of spec test 6. -/
theorem shortLong_returns_L_div_Q_witness :
    shortLong ("internationalization a localization".data)
      = .ok ((specL ("internationalization a localization".data) : ℚ)
          / (specQ ("internationalization a localization".data) : ℚ)) :=
  shortLong_returns_L_div_Q _ (by decide)

/-- C2: whenever at least one qualifying word exists, the returned value lies
in the closed interval [0, 1]. -/
theorem shortLong_in_unit_interval (s : List Char)
    (h : 0 < (qualifying s).length) :
    ∃ q : ℚ, shortLong s = .ok q ∧ 0 ≤ q ∧ q ≤ 1 := by
  refine ⟨(countLong (qualifying s) : ℚ) / ((qualifying s).length : ℚ),
    ?_, ?_, ?_⟩
  · simp only [shortLong]
    rw [if_neg (by omega)]
  · positivity
  · rw [div_le_one (by exact_mod_cast h)]
    exact_mod_cast countLong_le_length _

/-- Witness for C2 at a concrete input. -/
theorem shortLong_in_unit_interval_witness :
    ∃ q : ℚ, shortLong ("a hippopotamus sat".data) = .ok q ∧ 0 ≤ q ∧ q ≤ 1 :=
  shortLong_in_unit_interval _ (by decide)

/-- C3: evaluation of the code at the failing inputs "the a" and "": the
qualifying list is empty and the code raises an uncaught ZeroDivisionError
(modelled as the explicit error constructor) — the naive reference crash,
not the EmptyQualifyingSetError-equivalent typed policy error the spec
prescribes. -/
theorem shortLong_raises_ZeroDivisionError_on_empty :
    shortLongStr "the a" = .zeroDivisionError
    ∧ shortLongStr "" = .zeroDivisionError :=
  ⟨by decide, by decide⟩

/-- C4 counterexample: the results of "The cat sat" and "the cat sat" do NOT
differ — both calls return 0 — refuting the claim's assertion that the
former's result differs from the latter's. -/
theorem shortLong_case_results_equal :
    shortLongStr "The cat sat" = shortLongStr "the cat sat"
    ∧ shortLongStr "the cat sat" = .ok 0 := by
  have h1 : shortLong ("The cat sat".data) = .ok 0 :=
    shortLong_eval _ 0 3 0 (by decide) (by decide) (by decide) (by norm_num)
  have h2 : shortLong ("the cat sat".data) = .ok 0 :=
    shortLong_eval _ 0 2 0 (by decide) (by decide) (by decide) (by norm_num)
  exact ⟨h1.trans h2.symm, h2⟩

/-- C4 amended: the stopword filter is exact-case, so "The" in "The cat sat"
is kept as a qualifying word (three qualifying words, versus two for
"the cat sat"); however the returned values do not differ — both calls
return 0, since no qualifying word exceeds 8 characters. -/
theorem shortLong_case_sensitive_filter :
    (['T', 'h', 'e'] : List Char) ∈ qualifying ("The cat sat".data)
    ∧ (qualifying ("The cat sat".data)).length = 3
    ∧ (qualifying ("the cat sat".data)).length = 2
    ∧ shortLongStr "The cat sat" = .ok 0
    ∧ shortLongStr "the cat sat" = .ok 0 := by
  refine ⟨by decide, by decide, by decide, ?_, ?_⟩
  · exact shortLong_eval _ 0 3 0 (by decide) (by decide) (by decide) (by norm_num)
  · exact shortLong_eval _ 0 2 0 (by decide) (by decide) (by decide) (by norm_num)

/-- C5: splitting treats space, tab and newline uniformly (mapping every
whitespace character to a plain space leaves the split unchanged) and
collapses consecutive whitespace, so "the  cat\tsat\n" gives the same
result as "the cat sat". -/
theorem shortLong_whitespace_normalization :
    (∀ s : List Char,
        splitWords (s.map (fun c => if isSpace c then ' ' else c))
          = splitWords s)
    ∧ shortLongStr "the  cat\tsat\n" = shortLongStr "the cat sat" := by
  constructor
  · intro s
    exact splitWordsAux_uniform s []
  · have h1 : shortLong ("the  cat\tsat\n".data) = .ok 0 :=
      shortLong_eval _ 0 2 0 (by decide) (by decide) (by decide) (by norm_num)
    have h2 : shortLong ("the cat sat".data) = .ok 0 :=
      shortLong_eval _ 0 2 0 (by decide) (by decide) (by decide) (by norm_num)
    exact h1.trans h2.symm

/-- C6: the long-word test measures length in code points, not bytes: the
count depends only on the code-point lengths of the words; any word of more
than 8 code points counts as long and any word of at most 8 code points does
not, regardless of UTF-8 byte length — witnessed by a 9-code-point word of
18 bytes that is long and an 8-code-point word of 24 bytes that is not. -/
theorem countLong_codepoints_not_bytes :
    (∀ ws : List (List Char),
        countLong ws = (ws.map List.length).countP (fun n => decide (8 < n)))
    ∧ (∀ w : List Char, 8 < w.length → countLong [w] = 1)
    ∧ (∀ w : List Char, w.length ≤ 8 → countLong [w] = 0)
    ∧ (utf8Len (List.replicate 9 'é') = 18 ∧ countLong [List.replicate 9 'é'] = 1)
    ∧ (utf8Len (List.replicate 8 '語') = 24 ∧ countLong [List.replicate 8 '語'] = 0) := by
  refine ⟨?_, ?_, ?_, by decide, by decide⟩
  · intro ws
    rw [countLong_eq_countP, List.countP_map]
    rfl
  · intro w h
    simp [countLong, h]
  · intro w h
    simp [countLong, Nat.not_lt.mpr h]

/-- Witness for C6's quantified parts at concrete multi-byte words. -/
theorem countLong_codepoints_not_bytes_witness :
    countLong [List.replicate 9 'é'] = 1 ∧ countLong [List.replicate 8 '語'] = 0 :=
  ⟨countLong_codepoints_not_bytes.2.1 _ (by decide),
   countLong_codepoints_not_bytes.2.2.1 _ (by decide)⟩

/-- C7: "hippopotamus" gives one qualifying word of length 12 > 8, so the
result is 1. -/
theorem shortLong_hippopotamus :
    shortLongStr "hippopotamus" = .ok 1 :=
  shortLong_eval _ 1 1 1 (by decide) (by decide) (by decide) (by norm_num)

/-- C8: shortLong is deterministic: two calls on equal inputs return the
same value. The source body reads only its parameter and local variables,
so its embedding is a pure function, and side-effect freedom holds by
construction of the model. -/
theorem shortLong_deterministic (s₁ s₂ : List Char) (h : s₁ = s₂) :
    shortLong s₁ = shortLong s₂ := by
  rw [h]

/-- Witness for C8 at a concrete input. -/
theorem shortLong_deterministic_witness :
    shortLong ("cat hippopotamus".data) = shortLong ("cat hippopotamus".data) :=
  shortLong_deterministic _ _ rfl

/-- C9: shortLong yields the ZeroDivisionError result exactly when the
qualifying-word list is empty, and otherwise returns a value. -/
theorem shortLong_error_iff_empty (s : List Char) :
    (shortLong s = .zeroDivisionError ↔ qualifying s = [])
    ∧ (qualifying s ≠ [] → ∃ q, shortLong s = .ok q) := by
  constructor
  · constructor
    · intro h
      by_contra hne
      have hlen : (qualifying s).length ≠ 0 := by
        simpa [List.length_eq_zero] using hne
      simp only [shortLong] at h
      rw [if_neg hlen] at h
      exact PyResult.noConfusion h
    · intro h
      simp only [shortLong]
      rw [if_pos (by simp [h])]
  · intro h
    refine ⟨(countLong (qualifying s) : ℚ) / ((qualifying s).length : ℚ), ?_⟩
    simp only [shortLong]
    rw [if_neg (by simpa [List.length_eq_zero] using h)]

/-- Witness for C9 at concrete inputs: all-stopword input errors, and a
one-word input returns a value. -/
theorem shortLong_error_iff_empty_witness :
    shortLong ("a a the".data) = .zeroDivisionError
    ∧ ∃ q, shortLong ("cats".data) = .ok q :=
  ⟨(shortLong_error_iff_empty ("a a the".data)).1.mpr (by decide),
   (shortLong_error_iff_empty ("cats".data)).2 (by decide)⟩

/-- C10: the result is invariant under whitespace padding: surrounding the
input with whitespace-only strings changes neither the returned value nor
the error condition. -/
theorem shortLong_whitespace_padding (w₁ s w₂ : List Char)
    (h₁ : ∀ c ∈ w₁, isSpace c = true) (h₂ : ∀ c ∈ w₂, isSpace c = true) :
    shortLong (w₁ ++ s ++ w₂) = shortLong s := by
  have key : splitWords (w₁ ++ s ++ w₂) = splitWords s := by
    unfold splitWords
    rw [List.append_assoc, splitWordsAux_dropLeading w₁ _ h₁,
      splitWordsAux_dropTrailing s w₂ [] h₂]
  simp only [shortLong, qualifying, key]

/-- Witness for C10 at a concrete padded input. -/
theorem shortLong_whitespace_padding_witness :
    shortLong ([' ', '\t'] ++ "hippo cat".data ++ ['\n'])
      = shortLong ("hippo cat".data) :=
  shortLong_whitespace_padding _ _ _ (by decide) (by decide)

end RustPythonCFFI
